import Mathlib

/-!
# Verification of the rlq_site_odoo lottery and pivot cores

Shallow embedding, in Lean 4, of the two core components of the
repository:

* the eligibility-constrained lottery engine of
  `src/random_sort_visiteurs/run_lottery.py`
  (`get_ineligible_participants` and the eligibility / draw / persistence
  logic of `main`), and
* the answer-pivot pipeline of
  `src/explode_form_responses/pivot_form_responses_participants.py`
  (`load_and_fill_na_data`, `group_data_by_nam_email`, `pivot_responses`).

Pandas dataframes are modelled as lists of records; column presence in
the winners file is modelled by boolean flags on the ledger; reading the
draw count from the console is modelled as an `Option Int` parameter
(`none` for a `ValueError` of `int(input(...))`); `DataFrame.sample` is
an arbitrary function parameter (its distribution is irrelevant to every
property below); the single `datetime.now().strftime(...)` call of a run
is a string parameter.

Where the Python code builds Python sets or uses `pandas.unique` /
`value_counts` (whose outputs are only ever consumed through membership
in this program), we use `List.dedup`; every statement below is
order-independent on those lists, matching the spec's "no ordering
guarantee on output; set membership only".
-/

/-- One row of the winners file `gagnants_combines.xlsx`: columns
`nom_du_participant`, `ticket_devenement` (the role), `numero_ticket`
and `heure_du_tirage`. -/
structure WRow where
  nom : String
  role : String
  ticket : String
  heure : String
deriving DecidableEq, Repr

/-- The winners file as loaded by `pd.read_excel`: its rows, plus flags
recording which of the columns used by the script are actually present
(historical files may predate some columns). -/
structure Ledger where
  rows : List WRow
  hasName : Bool
  hasRole : Bool
  hasTicket : Bool
deriving DecidableEq, Repr

/-- One row of the concatenated candidate pool `df_entree`: columns
`nom_du_participant`, `ticket_devenement`, `numero_ticket`. -/
structure Entry where
  nom : String
  role : String
  ticket : String
deriving DecidableEq, Repr

/-- `gagnants_benevoles`: ledger rows whose role column equals `'Benevole'`
(line 48 of `run_lottery.py`). -/
def gagnants_benevoles (rows : List WRow) : List WRow :=
  rows.filter fun r => decide (r.role = "Benevole")

/-- `gagnants_autres`: ledger rows whose role column differs from
`'Benevole'` (line 49). -/
def gagnants_autres (rows : List WRow) : List WRow :=
  rows.filter fun r => decide (r.role ≠ "Benevole")

/-- `personnes_a_exclure_autres`: the distinct names of non-Benevole
winners (line 51, `.unique().tolist()`). -/
def personnes_a_exclure_autres (rows : List WRow) : List String :=
  ((gagnants_autres rows).map WRow.nom).dedup

/-- `wins_par_benevole[n]`: how many Benevole-role ledger rows carry the
name `n` (line 53, `value_counts`). -/
def wins_par_benevole (rows : List WRow) (n : String) : Nat :=
  ((gagnants_benevoles rows).filter fun r => decide (r.nom = n)).length

/-- `benevoles_a_exclure`: distinct Benevole winner names whose
Benevole-win count is at least 2 (line 54). -/
def benevoles_a_exclure (rows : List WRow) : List String :=
  (((gagnants_benevoles rows).map WRow.nom).dedup).filter fun n =>
    decide (2 ≤ wins_par_benevole rows n)

/-- `personnes_ineligibles = list(set(autres + benevoles))` (line 56). -/
def personnes_ineligibles (rows : List WRow) : List String :=
  (personnes_a_exclure_autres rows ++ benevoles_a_exclure rows).dedup

/-- `get_ineligible_participants` (lines 29-59): `none` input means the
winners file does not exist; an empty file, or a file missing the name
or role column (in which case the script prints a warning), yields no
role-based exclusions while still returning the loaded dataframe. -/
def get_ineligible_participants (winnersFile : Option Ledger) :
    List String × Option Ledger :=
  match winnersFile with
  | none => ([], none)
  | some df =>
    if df.rows.isEmpty then ([], some df)
    else if !df.hasName || !df.hasRole then ([], some df)
    else (personnes_ineligibles df.rows, some df)

/-- The eligible pool computed by `main` (lines 87-93): drop candidates
whose name is among `personnes_ineligibles`, then, when the winners
dataframe was loaded and has the `numero_ticket` column, drop candidates
whose ticket is already in it. -/
def eligiblePool (entries : List Entry) (winnersFile : Option Ledger) :
    List Entry :=
  let pr := get_ineligible_participants winnersFile
  let elig1 := entries.filter fun e => !(decide (e.nom ∈ pr.1))
  match pr.2 with
  | some g =>
    if g.hasTicket then
      elig1.filter fun e => !(decide (e.ticket ∈ g.rows.map WRow.ticket))
    else elig1
  | none => elig1

/-- Outcome of one invocation of `main` (lines 61-128): each abort
branch of the script (`return` after a printed message) is one
constructor; `success` carries the freshly drawn winner rows and the row
list written back to `gagnants_combines.xlsx`. -/
inductive RunResult where
  | emptyInput
  | noEligible
  | invalidCount
  | nonPositiveCount
  | insufficientPool
  | success (winners : List WRow) (written : List WRow)
deriving DecidableEq, Repr

/-- The rows written to the winners file by a run, `none` when the run
aborted before `to_excel` (line 127). -/
def RunResult.written : RunResult → Option (List WRow)
  | .success _ w => some w
  | _ => none

/-- The rows drawn by a run, `none` when the run aborted before
`df_eligibles.sample` (line 115). -/
def RunResult.drawn : RunResult → Option (List WRow)
  | .success ws _ => some ws
  | _ => none

/-- The row list of an optional winners file (`[]` when absent). -/
def ledgerRows : Option Ledger → List WRow
  | none => []
  | some df => df.rows

/-- `df_nouveaux_gagnants` (lines 115-116): the sampled eligible rows,
each stamped with the run timestamp as `heure_du_tirage`. -/
def drawnRows (entries : List Entry) (winnersFile : Option Ledger)
    (n : Int) (sample : List Entry → Nat → List Entry) (now : String) :
    List WRow :=
  (sample (eligiblePool entries winnersFile) n.toNat).map fun e =>
    { nom := e.nom, role := e.role, ticket := e.ticket, heure := now }

/-- `main` (lines 61-128).  `entries` is `df_entree` after
concatenation; `winnersFile` is the winners file when it exists;
`countInput` is the parsed console input (`none` on `ValueError`);
`sample` stands for `DataFrame.sample`; `now` is the one
`datetime.now().strftime("%Y-%m-%d %H:%M:%S")` string of the run.  The
branch order follows the script: empty input (line 82), eligibility
filtering (87-93), empty eligible pool (96), count parsing (101-105),
non-positive count (107), insufficient pool (111), then the draw, the
timestamp column assignment (116) and the append-and-write (122-127). -/
def runLottery (entries : List Entry) (winnersFile : Option Ledger)
    (countInput : Option Int) (sample : List Entry → Nat → List Entry)
    (now : String) : RunResult :=
  if entries.isEmpty then .emptyInput
  else if (eligiblePool entries winnersFile).isEmpty then .noEligible
  else
    match countInput with
    | none => .invalidCount
    | some n =>
      if n ≤ 0 then .nonPositiveCount
      else if ((eligiblePool entries winnersFile).length : Int) < n then
        .insufficientPool
      else
        .success (drawnRows entries winnersFile n sample now)
          (match (get_ineligible_participants winnersFile).2 with
            | some g =>
              if g.rows.isEmpty then drawnRows entries winnersFile n sample now
              else g.rows ++ drawnRows entries winnersFile n sample now
            | none => drawnRows entries winnersFile n sample now)

/-! ## Basic facts about the lottery embedding -/

lemma get_ineligible_participants_snd (wf : Option Ledger) :
    (get_ineligible_participants wf).2 = wf := by
  cases wf with
  | none => rfl
  | some df =>
    unfold get_ineligible_participants
    by_cases h1 : df.rows.isEmpty
    · simp [h1]
    · by_cases h2 : !df.hasName || !df.hasRole <;> simp [h1, h2]

lemma eligiblePool_none (entries : List Entry) :
    eligiblePool entries none = entries := by
  unfold eligiblePool get_ineligible_participants
  simp

lemma eligiblePool_empty_rows (entries : List Entry) (df : Ledger)
    (h : df.rows = []) :
    eligiblePool entries (some df) = entries := by
  unfold eligiblePool get_ineligible_participants
  simp [h]

/-- The row list written in the success branch of `main` equals the old
ledger rows followed by the new winners, in both the `concat` case and
the fresh-file case (lines 122-127). -/
lemma written_rows_eq (wf : Option Ledger) (ws : List WRow) :
    (match (get_ineligible_participants wf).2 with
      | some g => if g.rows.isEmpty then ws else g.rows ++ ws
      | none => ws) = ledgerRows wf ++ ws := by
  rw [get_ineligible_participants_snd]
  cases wf with
  | none => rfl
  | some df =>
    by_cases h : df.rows.isEmpty
    · simp [ledgerRows, List.isEmpty_iff.mp h]
    · simp [ledgerRows, h]

/-- Characterization of the successful outcome of a run: the input and
the eligible pool are nonempty, the parsed count is a positive integer
not exceeding the pool size, the winners are the sampled rows stamped
with the run timestamp, and the written file is the old ledger followed
by the winners. -/
lemma runLottery_success_iff (entries : List Entry) (wf : Option Ledger)
    (ci : Option Int) (sample : List Entry → Nat → List Entry)
    (now : String) (ws wr : List WRow) :
    runLottery entries wf ci sample now = .success ws wr ↔
      entries.isEmpty = false ∧
      (eligiblePool entries wf).isEmpty = false ∧
      ∃ n : Int, ci = some n ∧ ¬n ≤ 0 ∧
        ¬((eligiblePool entries wf).length : Int) < n ∧
        ws = drawnRows entries wf n sample now ∧
        wr = ledgerRows wf ++ ws := by
  constructor
  · intro h
    unfold runLottery at h
    cases hE : entries.isEmpty <;> rw [hE] at h
    · simp only [Bool.false_eq_true, if_false] at h
      cases hel : (eligiblePool entries wf).isEmpty <;> rw [hel] at h
      · simp only [Bool.false_eq_true, if_false] at h
        cases ci with
        | none => cases h
        | some n =>
          dsimp only at h
          by_cases hn : n ≤ 0
          · rw [if_pos hn] at h; cases h
          · rw [if_neg hn] at h
            by_cases hlt : ((eligiblePool entries wf).length : Int) < n
            · rw [if_pos hlt] at h; cases h
            · rw [if_neg hlt, written_rows_eq] at h
              injection h with h1 h2
              exact ⟨rfl, rfl, n, rfl, hn, hlt, h1.symm, by rw [← h2, ← h1]⟩
      · simp only [if_true] at h; cases h
    · simp only [if_true] at h; cases h
  · rintro ⟨hE, hel, n, rfl, hn, hlt, rfl, rfl⟩
    unfold runLottery
    rw [hE, hel]
    simp only [Bool.false_eq_true, if_false]
    rw [if_neg hn, if_neg hlt, written_rows_eq]

/-- Zeta-unfolded form of `eligiblePool`, convenient for rewriting. -/
lemma eligiblePool_def (entries : List Entry) (wf : Option Ledger) :
    eligiblePool entries wf =
      match (get_ineligible_participants wf).2 with
      | some g =>
        if g.hasTicket then
          (entries.filter fun e =>
              !(decide (e.nom ∈ (get_ineligible_participants wf).1))).filter
            fun e => !(decide (e.ticket ∈ g.rows.map WRow.ticket))
        else entries.filter fun e =>
          !(decide (e.nom ∈ (get_ineligible_participants wf).1))
      | none => entries.filter fun e =>
          !(decide (e.nom ∈ (get_ineligible_participants wf).1)) := rfl

/-! ## Concrete data reused by the witnesses below -/

/-- A deterministic stand-in for `DataFrame.sample` in concrete runs. -/
def sampleTake : List Entry → Nat → List Entry := fun l k => l.take k

/-- A two-candidate pool used by several witnesses. -/
def exEntries : List Entry :=
  [{ nom := "Alice", role := "Visiteur", ticket := "T1" },
   { nom := "Bob", role := "Benevole", ticket := "T2" }]

/-- The winner row produced for Alice at the example timestamp. -/
def exDrawA : WRow :=
  { nom := "Alice", role := "Visiteur", ticket := "T1",
    heure := "2024-05-01 12:00:00" }

/-- The winner row produced for Bob at the example timestamp. -/
def exDrawB : WRow :=
  { nom := "Bob", role := "Benevole", ticket := "T2",
    heure := "2024-05-01 12:00:00" }

/-! ## Claim theorems for the lottery engine -/

/-- C6: if the winners file does not exist, or exists but is empty, the
eligible pool computed by `main` is the candidate pool unchanged — no
row is removed by the role rule or by the ticket rule. -/
theorem claim6_empty_ledger_all_eligible (entries : List Entry)
    (wf : Option Ledger)
    (h : wf = none ∨ ∃ df : Ledger, wf = some df ∧ df.rows = []) :
    eligiblePool entries wf = entries := by
  rcases h with rfl | ⟨df, rfl, hrows⟩
  · exact eligiblePool_none entries
  · exact eligiblePool_empty_rows entries df hrows

/-- Witness for C6 at a concrete pool and an existing-but-empty winners
file. -/
theorem claim6_witness :
    ((some { rows := [], hasName := true, hasRole := true,
             hasTicket := true } : Option Ledger) = none ∨
      ∃ df : Ledger,
        (some { rows := [], hasName := true, hasRole := true,
                hasTicket := true } : Option Ledger) = some df ∧
        df.rows = []) ∧
    eligiblePool exEntries
      (some { rows := [], hasName := true, hasRole := true,
              hasTicket := true }) = exEntries :=
  ⟨Or.inr ⟨_, rfl, rfl⟩,
   claim6_empty_ledger_all_eligible exEntries
     (some { rows := [], hasName := true, hasRole := true,
             hasTicket := true })
     (Or.inr ⟨_, rfl, rfl⟩)⟩

/-- C7: every successful run writes back exactly the pre-existing ledger
rows, unchanged and in order, followed by the newly drawn winner rows:
the ledger only grows and history is never truncated. -/
theorem claim7_ledger_append_only (entries : List Entry)
    (wf : Option Ledger) (ci : Option Int)
    (sample : List Entry → Nat → List Entry) (now : String)
    (ws wr : List WRow)
    (h : runLottery entries wf ci sample now = .success ws wr) :
    wr = ledgerRows wf ++ ws := by
  obtain ⟨-, -, n, -, -, -, -, hwr⟩ :=
    (runLottery_success_iff entries wf ci sample now ws wr).mp h
  exact hwr

/-- Witness for C7: a concrete successful run against a nonempty
existing ledger. -/
theorem claim7_witness :
    runLottery exEntries
        (some { rows := [exDrawB], hasName := true, hasRole := true,
                hasTicket := true })
        (some 1) sampleTake "2024-05-01 12:00:00" =
      RunResult.success [exDrawA] [exDrawB, exDrawA] ∧
    ([exDrawB, exDrawA] : List WRow) =
      ledgerRows
          (some { rows := [exDrawB], hasName := true, hasRole := true,
                  hasTicket := true }) ++ [exDrawA] :=
  ⟨by decide,
   claim7_ledger_append_only exEntries
     (some { rows := [exDrawB], hasName := true, hasRole := true,
             hasTicket := true })
     (some 1) sampleTake "2024-05-01 12:00:00" [exDrawA] [exDrawB, exDrawA]
     (by decide)⟩

/-- C8: when the console input does not parse as an integer, or parses
to a non-positive integer, the run never reaches the draw: nothing is
sampled, no timestamp is stamped, and the winners file is not written. -/
theorem claim8_invalid_count_no_side_effects (entries : List Entry)
    (wf : Option Ledger) (ci : Option Int)
    (sample : List Entry → Nat → List Entry) (now : String)
    (h : ci = none ∨ ∃ n : Int, ci = some n ∧ n ≤ 0) :
    (runLottery entries wf ci sample now).drawn = none ∧
    (runLottery entries wf ci sample now).written = none := by
  cases hr : runLottery entries wf ci sample now with
  | success ws wr =>
    obtain ⟨-, -, n, hn, hpos, -, -, -⟩ :=
      (runLottery_success_iff entries wf ci sample now ws wr).mp hr
    rcases h with h | ⟨m, hm, hle⟩
    · rw [h] at hn; cases hn
    · rw [hm] at hn
      injection hn with e
      exact absurd (e ▸ hle) hpos
  | emptyInput => exact ⟨rfl, rfl⟩
  | noEligible => exact ⟨rfl, rfl⟩
  | invalidCount => exact ⟨rfl, rfl⟩
  | nonPositiveCount => exact ⟨rfl, rfl⟩
  | insufficientPool => exact ⟨rfl, rfl⟩

/-- Witness for C8 at a concrete run whose console input fails to
parse. -/
theorem claim8_witness :
    ((none : Option Int) = none ∨
      ∃ n : Int, (none : Option Int) = some n ∧ n ≤ 0) ∧
    (runLottery exEntries none none sampleTake
        "2024-05-01 12:00:00").drawn = none ∧
    (runLottery exEntries none none sampleTake
        "2024-05-01 12:00:00").written = none :=
  ⟨Or.inl rfl,
   claim8_invalid_count_no_side_effects exEntries none none sampleTake
     "2024-05-01 12:00:00" (Or.inl rfl)⟩

/-- C10: all winner rows of one successful run carry the single
timestamp string captured once for that run, so no two winners of the
same draw differ in `heure_du_tirage`. -/
theorem claim10_single_timestamp (entries : List Entry)
    (wf : Option Ledger) (ci : Option Int)
    (sample : List Entry → Nat → List Entry) (now : String)
    (ws wr : List WRow)
    (h : runLottery entries wf ci sample now = .success ws wr) :
    (∀ w ∈ ws, w.heure = now) ∧
    ∀ w1 ∈ ws, ∀ w2 ∈ ws, w1.heure = w2.heure := by
  obtain ⟨-, -, n, -, -, -, hws, -⟩ :=
    (runLottery_success_iff entries wf ci sample now ws wr).mp h
  subst hws
  constructor
  · intro w hw
    simp only [drawnRows, List.mem_map] at hw
    obtain ⟨e, -, rfl⟩ := hw
    rfl
  · intro w1 h1 w2 h2
    simp only [drawnRows, List.mem_map] at h1 h2
    obtain ⟨e1, -, rfl⟩ := h1
    obtain ⟨e2, -, rfl⟩ := h2
    rfl

/-- Witness for C10: a concrete run drawing two winners; both rows end
up with the same timestamp string. -/
theorem claim10_witness :
    runLottery exEntries none (some 2) sampleTake "2024-05-01 12:00:00" =
      RunResult.success [exDrawA, exDrawB] [exDrawA, exDrawB] ∧
    exDrawA.heure = exDrawB.heure :=
  ⟨by decide,
   (claim10_single_timestamp exEntries none (some 2) sampleTake
       "2024-05-01 12:00:00" [exDrawA, exDrawB] [exDrawA, exDrawB]
       (by decide)).2 exDrawA (by decide) exDrawB (by decide)⟩

/-- A candidate whose name and ticket already appear in the ledger. -/
def cexEntry : Entry := { nom := "Ana", role := "Visiteur", ticket := "T9" }

/-- A one-row ledger recording a previous win by `cexEntry`. -/
def cexLedger : Ledger :=
  { rows := [{ nom := "Ana", role := "Visiteur", ticket := "T9",
               heure := "2024-04-01 09:00:00" }],
    hasName := true, hasRole := true, hasTicket := true }

/-- C2 counterexample: with an empty eligible pool and requested count
1 (the exact scenario named by the claim), the run does not take the
insufficient-pool branch — it aborts earlier, before the count is even
read, in the no-eligible-tickets branch of line 96. -/
theorem claim2_counterexample :
    runLottery [cexEntry] (some cexLedger) (some 1) sampleTake
        "2024-05-01 12:00:00" = RunResult.noEligible ∧
    RunResult.noEligible ≠ RunResult.insufficientPool ∧
    ((eligiblePool [cexEntry] (some cexLedger)).length : Int) < 1 :=
  ⟨by decide, by decide, by decide⟩

/-- C2 as amended: for a nonempty candidate pool and a parsed count
exceeding the eligible-pool size, the run aborts — in the
insufficient-pool branch when the eligible pool is nonempty, and in the
earlier no-eligible-tickets branch when it is empty — and in both cases
nothing is drawn and the winners file is not written. -/
theorem claim2_insufficient_pool_aborts (entries : List Entry)
    (wf : Option Ledger) (n : Int)
    (sample : List Entry → Nat → List Entry) (now : String)
    (hne : entries.isEmpty = false)
    (h : ((eligiblePool entries wf).length : Int) < n) :
    runLottery entries wf (some n) sample now =
      (if (eligiblePool entries wf).isEmpty then RunResult.noEligible
       else RunResult.insufficientPool) ∧
    (runLottery entries wf (some n) sample now).written = none ∧
    (runLottery entries wf (some n) sample now).drawn = none := by
  have h0 : (0 : Int) ≤ ((eligiblePool entries wf).length : Int) :=
    Int.natCast_nonneg _
  have hn : ¬n ≤ 0 := by omega
  have hkey : runLottery entries wf (some n) sample now =
      (if (eligiblePool entries wf).isEmpty then RunResult.noEligible
       else RunResult.insufficientPool) := by
    unfold runLottery
    rw [hne]
    simp only [Bool.false_eq_true, if_false]
    cases hel : (eligiblePool entries wf).isEmpty
    · simp only [Bool.false_eq_true, if_false]
      rw [if_neg hn, if_pos h]
    · simp only [if_true]
  refine ⟨hkey, ?_, ?_⟩ <;> rw [hkey] <;> split <;> rfl

/-- Witness for the amended C2: one candidate, no existing ledger,
requested count 2. -/
theorem claim2_witness :
    ([cexEntry] : List Entry).isEmpty = false ∧
    ((eligiblePool [cexEntry] none).length : Int) < 2 ∧
    (runLottery [cexEntry] none (some 2) sampleTake
        "2024-05-01 12:00:00" =
      (if (eligiblePool [cexEntry] none).isEmpty then RunResult.noEligible
       else RunResult.insufficientPool) ∧
    (runLottery [cexEntry] none (some 2) sampleTake
        "2024-05-01 12:00:00").written = none ∧
    (runLottery [cexEntry] none (some 2) sampleTake
        "2024-05-01 12:00:00").drawn = none) :=
  ⟨by decide, by decide,
   claim2_insufficient_pool_aborts [cexEntry] none 2 sampleTake
     "2024-05-01 12:00:00" (by decide) (by decide)⟩

/-- A nonempty ledger whose role column is absent. -/
def degLedger : Ledger :=
  { rows := [{ nom := "Zoe", role := "", ticket := "T5",
               heure := "2024-03-01 10:00:00" }],
    hasName := true, hasRole := false, hasTicket := true }

/-- C5: on a nonempty winners file missing the name or the role column,
the engine degrades to ticket-only exclusion: `get_ineligible_participants`
returns no name (after printing its warning, line 45), the eligible pool
is filtered only by the ledger tickets when the ticket column exists,
and every ledger ticket is still excluded from the pool.  No abort
branch of `main` is tied to this condition: the run proceeds. -/
theorem claim5_degraded_mode (entries : List Entry) (df : Ledger)
    (hne : df.rows ≠ [])
    (hmiss : df.hasName = false ∨ df.hasRole = false) :
    (get_ineligible_participants (some df)).1 = [] ∧
    eligiblePool entries (some df) =
      (if df.hasTicket then
         entries.filter fun e => !(decide (e.ticket ∈ df.rows.map WRow.ticket))
       else entries) ∧
    (df.hasTicket = true → ∀ e ∈ eligiblePool entries (some df),
      e.ticket ∉ df.rows.map WRow.ticket) := by
  have hE : df.rows.isEmpty = false := by
    cases hc : df.rows.isEmpty
    · rfl
    · exact absurd (List.isEmpty_iff.mp hc) hne
  have hcols : (!df.hasName || !df.hasRole) = true := by
    rcases hmiss with h | h <;> rw [h] <;> simp
  have h1 : get_ineligible_participants (some df) = ([], some df) := by
    unfold get_ineligible_participants
    dsimp only
    rw [hE]
    simp only [Bool.false_eq_true, if_false]
    rw [if_pos hcols]
  have h2 : eligiblePool entries (some df) =
      (if df.hasTicket then
         entries.filter fun e => !(decide (e.ticket ∈ df.rows.map WRow.ticket))
       else entries) := by
    rw [eligiblePool_def, h1]
    have hid : (entries.filter fun e =>
        !(decide (e.nom ∈ (([], some df) :
          List String × Option Ledger).1))) = entries := by
      simp
    dsimp only
    rw [hid]
  refine ⟨by rw [h1], h2, ?_⟩
  intro ht e he
  rw [h2, if_pos ht] at he
  simp only [List.mem_filter, Bool.not_eq_eq_eq_not, Bool.not_true,
    decide_eq_false_iff_not] at he
  exact he.2

/-- Witness for C5 at a ledger missing the role column. -/
theorem claim5_witness :
    degLedger.rows ≠ [] ∧
    (degLedger.hasName = false ∨ degLedger.hasRole = false) ∧
    ((get_ineligible_participants (some degLedger)).1 = [] ∧
     eligiblePool exEntries (some degLedger) =
       (if degLedger.hasTicket then
          exEntries.filter fun e =>
            !(decide (e.ticket ∈ degLedger.rows.map WRow.ticket))
        else exEntries) ∧
     (degLedger.hasTicket = true →
       ∀ e ∈ eligiblePool exEntries (some degLedger),
         e.ticket ∉ degLedger.rows.map WRow.ticket)) :=
  ⟨by decide, Or.inr (by decide),
   claim5_degraded_mode exEntries degLedger (by decide)
     (Or.inr (by decide))⟩

/-- The membership characterization at the heart of C1: a name is in
the role-based exclusion list iff it names a non-Benevole ledger entry,
or names a Benevole ledger entry and has at least two Benevole-role
ledger entries. -/
lemma mem_personnes_ineligibles (rows : List WRow) (n : String) :
    n ∈ personnes_ineligibles rows ↔
      ((∃ r ∈ rows, r.nom = n ∧ r.role ≠ "Benevole") ∨
       (∃ r ∈ rows, r.nom = n ∧ r.role = "Benevole" ∧
          2 ≤ ((rows.filter fun s => decide (s.role = "Benevole")).filter
                 fun s => decide (s.nom = n)).length)) := by
  simp only [personnes_ineligibles, personnes_a_exclure_autres,
    benevoles_a_exclure, gagnants_autres, gagnants_benevoles,
    wins_par_benevole, List.mem_dedup, List.mem_append, List.mem_filter,
    List.mem_map, decide_eq_true_eq]
  constructor
  · rintro (⟨a, ⟨ha, hrole⟩, hnom⟩ | ⟨⟨a, ⟨ha, hrole⟩, hnom⟩, hcount⟩)
    · exact Or.inl ⟨a, ha, hnom, hrole⟩
    · exact Or.inr ⟨a, ha, hnom, hrole, hcount⟩
  · rintro (⟨r, hr, hnom, hrole⟩ | ⟨r, hr, hnom, hrole, hcount⟩)
    · exact Or.inl ⟨r, ⟨hr, hrole⟩, hnom⟩
    · exact Or.inr ⟨⟨r, ⟨hr, hrole⟩, hnom⟩, hcount⟩

/-- C1: on a winners file carrying the name and role columns, the
ineligible-name set computed by `get_ineligible_participants` is exactly
{ names of non-Benevole entries } ∪ { names of Benevole entries with at
least two Benevole entries }; consequently every non-Benevole winner is
excluded after one win, while a name whose single ledger entry is a
Benevole win is still eligible. -/
theorem claim1_ineligible_names (df : Ledger)
    (hN : df.hasName = true) (hR : df.hasRole = true) :
    (∀ n : String,
      n ∈ (get_ineligible_participants (some df)).1 ↔
        ((∃ r ∈ df.rows, r.nom = n ∧ r.role ≠ "Benevole") ∨
         (∃ r ∈ df.rows, r.nom = n ∧ r.role = "Benevole" ∧
            2 ≤ ((df.rows.filter fun s => decide (s.role = "Benevole")).filter
                   fun s => decide (s.nom = n)).length)))
    ∧ (∀ r ∈ df.rows, r.role ≠ "Benevole" →
        r.nom ∈ (get_ineligible_participants (some df)).1)
    ∧ (∀ n : String,
        (∀ r ∈ df.rows, r.nom = n → r.role = "Benevole") →
        (df.rows.filter fun r => decide (r.nom = n)).length = 1 →
        n ∉ (get_ineligible_participants (some df)).1) := by
  have hfst : (get_ineligible_participants (some df)).1 =
      personnes_ineligibles df.rows := by
    unfold get_ineligible_participants
    dsimp only
    cases hrows : df.rows.isEmpty
    · simp only [Bool.false_eq_true, if_false]
      rw [hN, hR]
      simp [personnes_ineligibles, personnes_a_exclure_autres,
        benevoles_a_exclure]
    · simp only [if_true]
      rw [List.isEmpty_iff.mp hrows]
      simp [personnes_ineligibles, personnes_a_exclure_autres,
        benevoles_a_exclure, gagnants_autres, gagnants_benevoles]
  have hmain : ∀ n : String,
      n ∈ (get_ineligible_participants (some df)).1 ↔
        ((∃ r ∈ df.rows, r.nom = n ∧ r.role ≠ "Benevole") ∨
         (∃ r ∈ df.rows, r.nom = n ∧ r.role = "Benevole" ∧
            2 ≤ ((df.rows.filter fun s => decide (s.role = "Benevole")).filter
                   fun s => decide (s.nom = n)).length)) := by
    intro n
    rw [hfst]
    exact mem_personnes_ineligibles df.rows n
  refine ⟨hmain, ?_, ?_⟩
  · intro r hr hrole
    exact (hmain r.nom).mpr (Or.inl ⟨r, hr, rfl, hrole⟩)
  · intro n hall hlen hmem
    rcases (hmain n).mp hmem with ⟨r, hr, hnom, hrole⟩ |
      ⟨r, hr, hnom, hrole, hcount⟩
    · exact hrole (hall r hr hnom)
    · have hff : (df.rows.filter fun s => decide (s.role = "Benevole")).filter
          (fun s => decide (s.nom = n)) =
          df.rows.filter fun s =>
            decide (s.nom = n) && decide (s.role = "Benevole") := by
        rw [List.filter_filter]
      have hcongr : df.rows.filter
          (fun s => decide (s.nom = n) && decide (s.role = "Benevole")) =
          df.rows.filter fun s => decide (s.nom = n) := by
        apply List.filter_congr
        intro a ha
        by_cases hn : a.nom = n
        · simp [hn, hall a ha hn]
        · simp [hn]
      rw [hff, hcongr, hlen] at hcount
      omega

/-- A ledger with one Visiteur win and one Benevole win, used to witness
C1: the Visiteur is excluded after a single win, and the membership
characterization holds for the single-win Benevole too. -/
def c1Ledger : Ledger :=
  { rows := [{ nom := "Vera", role := "Visiteur", ticket := "T1",
               heure := "2024-04-01 09:00:00" },
             { nom := "Ben", role := "Benevole", ticket := "T2",
               heure := "2024-04-01 09:00:00" }],
    hasName := true, hasRole := true, hasTicket := true }

/-- Witness for C1: on `c1Ledger`, the one-time Visiteur winner "Vera"
is in the ineligible list. -/
theorem claim1_witness :
    c1Ledger.hasName = true ∧ c1Ledger.hasRole = true ∧
    "Vera" ∈ (get_ineligible_participants (some c1Ledger)).1 :=
  ⟨rfl, rfl,
   (claim1_ineligible_names c1Ledger rfl rfl).2.1
     { nom := "Vera", role := "Visiteur", ticket := "T1",
       heure := "2024-04-01 09:00:00" } (by decide) (by decide)⟩

/-!
## The answer-pivot pipeline

Embedding of `pivot_form_responses_participants.py`.  The loaded table
is a list of rows; `group_data_by_nam_email` keeps the three columns
`nom_du_participant`, `email`, `reponses_des_participants`, drops rows
whose answer is missing, and assigns `num_reponse` by
`groupby([nom, email]).cumcount()` — the 0-based running count of the
row's (name, email) key over the kept rows in original order.
`pivot_responses` pivots: one output row per distinct (name, email)
pair (pandas sorts the index; we sort with `insertionSort`), one column
per distinct `num_reponse` value in ascending order, each cell holding
the first kept row matching (key, num) — `aggfunc="first"`.
-/

/-- One row of the cleaned form-responses table, as consumed by
`group_data_by_nam_email`: name, email and a possibly-missing answer. -/
structure AnswerRow where
  nom : String
  email : String
  reponse : Option String
deriving DecidableEq, Repr

/-- One row of `df_responses` after `dropna` and `cumcount`. -/
structure RespRow where
  nom : String
  email : String
  reponse : String
  num : Nat
deriving DecidableEq, Repr

/-- The rows surviving `dropna(subset=["reponses_des_participants"])`,
as (name, email, answer) triples, in original order (line 49). -/
def keptRows (rows : List AnswerRow) : List (String × String × String) :=
  rows.filterMap fun r => r.reponse.map fun v => (r.nom, r.email, v)

/-- `groupby(["nom_du_participant", "email"]).cumcount()` (lines 50-52):
each row receives the number of earlier rows sharing its key; `cnt` is
the running per-key counter. -/
def cumcountFrom (cnt : String × String → Nat) :
    List (String × String × String) → List RespRow
  | [] => []
  | (n, e, v) :: rs =>
    { nom := n, email := e, reponse := v, num := cnt (n, e) } ::
      cumcountFrom (fun k => if k = (n, e) then cnt k + 1 else cnt k) rs

/-- `group_data_by_nam_email` (lines 37-54): drop rows with a missing
answer, then assign `num_reponse` by per-key running count. -/
def group_data_by_nam_email (rows : List AnswerRow) : List RespRow :=
  cumcountFrom (fun _ => 0) (keptRows rows)

/-- Lexicographic order on (name, email) keys, the sort order of the
pandas MultiIndex built by `pivot_table`. -/
def pairLe (a b : String × String) : Prop :=
  a.1 < b.1 ∨ (a.1 = b.1 ∧ a.2 ≤ b.2)

instance : DecidableRel pairLe := fun a b =>
  inferInstanceAs (Decidable (a.1 < b.1 ∨ (a.1 = b.1 ∧ a.2 ≤ b.2)))

/-- The pivot index: the distinct (name, email) keys of `df_responses`,
sorted (pandas `pivot_table` sorts its index). -/
def pivotIndex (l : List RespRow) : List (String × String) :=
  List.insertionSort pairLe ((l.map fun r => (r.nom, r.email)).dedup)

/-- The pivot columns: the distinct `num_reponse` values, in ascending
order (pandas `pivot_table` sorts its columns). -/
def pivotCols (l : List RespRow) : List Nat :=
  List.insertionSort (· ≤ ·) ((l.map RespRow.num).dedup)

/-- One cell of the pivot: the answer of the first row matching the
(key, column) pair — `aggfunc="first"` (line 71) — or null when the
participant has no row with that `num_reponse`. -/
def cell (l : List RespRow) (p : String × String) (c : Nat) :
    Option String :=
  (l.find? fun r => decide (r.nom = p.1) && decide (r.email = p.2) &&
      decide (r.num = c)).map RespRow.reponse

/-- One row of the pivoted output: the identity pair and the cell list
in ascending column order (columns are renamed `reponse_(c+1)`, a purely
cosmetic step we omit). -/
structure PivotRow where
  nom : String
  email : String
  cells : List (Option String)
deriving DecidableEq, Repr

/-- `pivot_responses` (lines 57-81). -/
def pivot_responses (l : List RespRow) : List PivotRow :=
  (pivotIndex l).map fun p =>
    { nom := p.1, email := p.2, cells := (pivotCols l).map fun c => cell l p c }

/-- The reference answer sequence of a participant: the non-missing
answers of the rows carrying that (name, email) pair, in original input
order. -/
def answersOf (rows : List AnswerRow) (n e : String) : List String :=
  (rows.filter fun r => decide (r.nom = n) && decide (r.email = e)).filterMap
    AnswerRow.reponse

/-! ## Facts about the pivot embedding -/

lemma cumcountFrom_map_key (l : List (String × String × String)) :
    ∀ cnt, (cumcountFrom cnt l).map (fun r => (r.nom, r.email)) =
      l.map fun q => (q.1, q.2.1) := by
  induction l with
  | nil => intro cnt; rfl
  | cons q rs ih =>
    intro cnt
    obtain ⟨n, e, v⟩ := q
    simp only [cumcountFrom, List.map_cons]
    rw [ih]

/-- Filtering the cumcounted rows to one key yields that key's answers
in order, numbered consecutively from the key's entry counter. -/
lemma cumcountFrom_filter (p : String × String) :
    ∀ (l : List (String × String × String)) (cnt : String × String → Nat),
      (((cumcountFrom cnt l).filter fun r =>
          decide (r.nom = p.1) && decide (r.email = p.2)).map
          RespRow.reponse =
        (l.filter fun q => decide (q.1 = p.1) && decide (q.2.1 = p.2)).map
          fun q => q.2.2) ∧
      ((cumcountFrom cnt l).filter fun r =>
          decide (r.nom = p.1) && decide (r.email = p.2)).map RespRow.num =
        List.range' (cnt p)
          ((l.filter fun q =>
            decide (q.1 = p.1) && decide (q.2.1 = p.2)).length) := by
  intro l
  induction l with
  | nil => intro cnt; exact ⟨rfl, rfl⟩
  | cons q rs ih =>
    intro cnt
    obtain ⟨n, e, v⟩ := q
    simp only [cumcountFrom]
    by_cases h1 : n = p.1
    · by_cases h2 : e = p.2
      · subst h1
        subst h2
        obtain ⟨ihr, ihn⟩ :=
          ih fun k => if k = (p.1, p.2) then cnt k + 1 else cnt k
        have hcnt : (if p = (p.1, p.2) then cnt p + 1 else cnt p) =
            cnt p + 1 := if_pos rfl
        constructor
        · simp only [List.filter_cons, decide_True, Bool.and_self, if_true,
            List.map_cons]
          rw [ihr]
        · simp only [List.filter_cons, decide_True, Bool.and_self, if_true,
            List.map_cons, List.length_cons, List.range'_succ]
          simp only [ihn, if_true, Prod.mk.eta]
      · obtain ⟨ihr, ihn⟩ :=
          ih fun k => if k = (n, e) then cnt k + 1 else cnt k
        have hne : p ≠ (n, e) := by
          intro hc
          exact h2 (by rw [hc])
        have hcnt : (if p = (n, e) then cnt p + 1 else cnt p) = cnt p :=
          if_neg hne
        constructor
        · simp only [List.filter_cons, h2, decide_False, Bool.and_false,
            Bool.false_eq_true, if_false]
          rw [ihr]
        · simp only [List.filter_cons, h2, decide_False, Bool.and_false,
            Bool.false_eq_true, if_false]
          simp only [ihn, hcnt]
    · obtain ⟨ihr, ihn⟩ :=
        ih fun k => if k = (n, e) then cnt k + 1 else cnt k
      have hne : p ≠ (n, e) := by
        intro hc
        exact h1 (by rw [hc])
      have hcnt : (if p = (n, e) then cnt p + 1 else cnt p) = cnt p :=
        if_neg hne
      constructor
      · simp only [List.filter_cons, h1, decide_False, Bool.false_and,
          Bool.false_eq_true, if_false]
        rw [ihr]
      · simp only [List.filter_cons, h1, decide_False, Bool.false_and,
          Bool.false_eq_true, if_false]
        simp only [ihn, hcnt]

/-- Filtering the kept (name, email, answer) triples to one key and
projecting the answers gives exactly that participant's original answer
sequence. -/
lemma keptRows_filter (rows : List AnswerRow) (n e : String) :
    ((keptRows rows).filter fun q =>
        decide (q.1 = n) && decide (q.2.1 = e)).map (fun q => q.2.2) =
      answersOf rows n e := by
  induction rows with
  | nil => rfl
  | cons r rs ih =>
    cases hr : r.reponse with
    | none =>
      have h1 : keptRows (r :: rs) = keptRows rs := by
        simp [keptRows, hr]
      have h2 : answersOf (r :: rs) n e = answersOf rs n e := by
        unfold answersOf
        rcases Bool.eq_false_or_eq_true
            (decide (r.nom = n) && decide (r.email = e)) with hk | hk
        · rw [@List.filter_cons_of_pos _
            (fun s => decide (s.nom = n) && decide (s.email = e)) r rs hk,
            List.filterMap_cons, hr]
        · rw [@List.filter_cons_of_neg _
            (fun s => decide (s.nom = n) && decide (s.email = e)) r rs
            (by simp [hk])]
      rw [h1, h2]
      exact ih
    | some v =>
      have h1 : keptRows (r :: rs) = (r.nom, r.email, v) :: keptRows rs := by
        simp [keptRows, hr]
      rcases Bool.eq_false_or_eq_true
          (decide (r.nom = n) && decide (r.email = e)) with hk | hk
      · have h2 : answersOf (r :: rs) n e = v :: answersOf rs n e := by
          unfold answersOf
          rw [@List.filter_cons_of_pos _
            (fun s => decide (s.nom = n) && decide (s.email = e)) r rs hk,
            List.filterMap_cons, hr]
        rw [h1, h2,
          @List.filter_cons_of_pos _
            (fun q => decide (q.1 = n) && decide (q.2.1 = e))
            (r.nom, r.email, v) (keptRows rs) hk,
          List.map_cons]
        rw [ih]
      · have h2 : answersOf (r :: rs) n e = answersOf rs n e := by
          unfold answersOf
          rw [@List.filter_cons_of_neg _
            (fun s => decide (s.nom = n) && decide (s.email = e)) r rs
            (by simp [hk])]
        rw [h1, h2,
          @List.filter_cons_of_neg _
            (fun q => decide (q.1 = n) && decide (q.2.1 = e))
            (r.nom, r.email, v) (keptRows rs) (by simp [hk])]
        exact ih

/-- `find?` on a filtered list searches the original list with the
conjunction of the two predicates. -/
lemma find?_filter (l : List RespRow) (p q : RespRow → Bool) :
    (l.filter p).find? q = l.find? fun r => p r && q r := by
  induction l with
  | nil => rfl
  | cons a l ih =>
    by_cases hp : p a = true
    · rw [@List.filter_cons_of_pos _ p a l hp]
      by_cases hq : q a = true
      · rw [List.find?_cons_of_pos _ hq,
          @List.find?_cons_of_pos _ (fun r => p r && q r) a l
            (by show (p a && q a) = true; rw [hp, hq]; rfl)]
      · rw [List.find?_cons_of_neg _ hq,
          @List.find?_cons_of_neg _ (fun r => p r && q r) a l
            (by simp [hp, hq]), ih]
    · rw [@List.filter_cons_of_neg _ p a l hp,
        @List.find?_cons_of_neg _ (fun r => p r && q r) a l
          (by simp [hp]), ih]

/-- On a list whose `num` column reads `s, s+1, s+2, ...`, searching for
`num = c` returns the answer at offset `c - s`, or nothing when `c`
precedes the numbering. -/
lemma find?_num_eq (c : Nat) :
    ∀ (ys : List RespRow) (s : Nat),
      ys.map RespRow.num = List.range' s ys.length →
      ((ys.find? fun r => decide (r.num = c)).map RespRow.reponse) =
        if s ≤ c then (ys.map RespRow.reponse)[c - s]? else none := by
  intro ys
  induction ys with
  | nil =>
    intro s _
    simp
  | cons y ys ih =>
    intro s h
    simp only [List.map_cons, List.length_cons, List.range'_succ] at h
    have h1 : y.num = s := (List.cons.injEq _ _ _ _ ▸ h).1
    have h2 : List.map RespRow.num ys = List.range' (s + 1) ys.length :=
      (List.cons.injEq _ _ _ _ ▸ h).2
    by_cases hc : y.num = c
    · rw [List.find?_cons_of_pos _ (by simp [hc])]
      rw [← hc, h1]
      simp
    · rw [List.find?_cons_of_neg _ (by simp [hc]), ih (s + 1) h2]
      rw [h1] at hc
      by_cases hle : s + 1 ≤ c
      · rw [if_pos hle, if_pos (by omega)]
        have hsub : c - s = (c - (s + 1)) + 1 := by omega
        rw [hsub, List.map_cons, List.getElem?_cons_succ]
      · rw [if_neg hle, if_neg (by omega)]

/-- The answers column of one participant's group, in group order,
equals that participant's original answer sequence. -/
lemma group_filter_resp (rows : List AnswerRow) (p : String × String) :
    ((group_data_by_nam_email rows).filter fun r =>
        decide (r.nom = p.1) && decide (r.email = p.2)).map RespRow.reponse =
      answersOf rows p.1 p.2 := by
  unfold group_data_by_nam_email
  rw [(cumcountFrom_filter p (keptRows rows) (fun _ => 0)).1]
  exact keptRows_filter rows p.1 p.2

/-- The `num_reponse` column of one participant's group reads
`0, 1, 2, ...` up to the participant's answer count. -/
lemma group_filter_num (rows : List AnswerRow) (p : String × String) :
    ((group_data_by_nam_email rows).filter fun r =>
        decide (r.nom = p.1) && decide (r.email = p.2)).map RespRow.num =
      List.range' 0 (answersOf rows p.1 p.2).length := by
  have hlen : ((keptRows rows).filter fun q =>
      decide (q.1 = p.1) && decide (q.2.1 = p.2)).length =
      (answersOf rows p.1 p.2).length := by
    rw [← keptRows_filter rows p.1 p.2, List.length_map]
  unfold group_data_by_nam_email
  rw [(cumcountFrom_filter p (keptRows rows) (fun _ => 0)).2, hlen]

/-- A pivot cell holds exactly the participant's answer at the column
index, when it exists. -/
lemma cell_eq_get (rows : List AnswerRow) (p : String × String) (c : Nat) :
    cell (group_data_by_nam_email rows) p c =
      (answersOf rows p.1 p.2)[c]? := by
  unfold cell
  rw [show (fun r : RespRow => decide (r.nom = p.1) && decide (r.email = p.2)
        && decide (r.num = c)) =
      (fun r : RespRow =>
        (fun s : RespRow => decide (s.nom = p.1) && decide (s.email = p.2)) r
        && (fun s : RespRow => decide (s.num = c)) r) from rfl,
    ← find?_filter]
  have hlen : ((group_data_by_nam_email rows).filter fun s =>
      decide (s.nom = p.1) && decide (s.email = p.2)).length =
      (answersOf rows p.1 p.2).length := by
    rw [← group_filter_resp rows p, List.length_map]
  have hnum : ((group_data_by_nam_email rows).filter fun s =>
      decide (s.nom = p.1) && decide (s.email = p.2)).map RespRow.num =
      List.range' 0 ((group_data_by_nam_email rows).filter fun s =>
        decide (s.nom = p.1) && decide (s.email = p.2)).length := by
    rw [group_filter_num rows p, hlen]
  rw [find?_num_eq c _ 0 hnum]
  simp only [Nat.zero_le, if_true, Nat.sub_zero]
  rw [group_filter_resp rows p]

/-- The greatest `num_reponse` of `df_responses` (0 when empty): the
index of the last pivot column. -/
def maxNum (l : List RespRow) : Nat := (l.map RespRow.num).foldr max 0

lemma le_foldr_max (xs : List Nat) : ∀ x ∈ xs, x ≤ xs.foldr max 0 := by
  induction xs with
  | nil => intro x hx; cases hx
  | cons a xs ih =>
    intro x hx
    rcases List.mem_cons.mp hx with rfl | hx
    · exact le_max_left _ _
    · exact le_trans (ih x hx) (le_max_right _ _)

lemma foldr_max_mem (xs : List Nat) (h : xs ≠ []) : xs.foldr max 0 ∈ xs := by
  induction xs with
  | nil => exact absurd rfl h
  | cons a xs ih =>
    simp only [List.foldr_cons]
    rcases eq_or_ne xs [] with rfl | hne
    · simp
    · rcases le_total a (xs.foldr max 0) with hle | hle
      · rw [max_eq_right hle]
        exact List.mem_cons_of_mem _ (ih hne)
      · rw [max_eq_left hle]
        exact List.mem_cons_self _ _

/-- The `num_reponse` values occurring in a nonempty `df_responses` are
exactly `0 .. maxNum`: per-key cumcount makes each group contiguous from
0, so the union over groups is an initial segment. -/
lemma mem_group_nums_iff (rows : List AnswerRow)
    (hne : group_data_by_nam_email rows ≠ []) (c : Nat) :
    c ∈ (group_data_by_nam_email rows).map RespRow.num ↔
      c < maxNum (group_data_by_nam_email rows) + 1 := by
  constructor
  · intro hc
    have := le_foldr_max _ _ hc
    unfold maxNum
    omega
  · intro hc
    have hM : maxNum (group_data_by_nam_email rows) ∈
        (group_data_by_nam_email rows).map RespRow.num := by
      apply foldr_max_mem
      intro h0
      exact hne (List.map_eq_nil_iff.mp h0)
    obtain ⟨r, hr, hrM⟩ := List.mem_map.mp hM
    have hrf : r ∈ (group_data_by_nam_email rows).filter fun s =>
        decide (s.nom = (r.nom, r.email).1) &&
          decide (s.email = (r.nom, r.email).2) := by
      rw [List.mem_filter]
      exact ⟨hr, by simp⟩
    have hnum := group_filter_num rows (r.nom, r.email)
    have hMin : maxNum (group_data_by_nam_email rows) ∈
        List.range' 0 (answersOf rows (r.nom, r.email).1
          (r.nom, r.email).2).length := by
      rw [← hnum, ← hrM]
      exact List.mem_map_of_mem RespRow.num hrf
    have hMlt : maxNum (group_data_by_nam_email rows) <
        (answersOf rows (r.nom, r.email).1 (r.nom, r.email).2).length := by
      have := List.mem_range'_1.mp hMin
      omega
    have hcmem : c ∈ List.range' 0
        (answersOf rows (r.nom, r.email).1 (r.nom, r.email).2).length :=
      List.mem_range'_1.mpr ⟨Nat.zero_le _, by omega⟩
    rw [← hnum] at hcmem
    obtain ⟨r2, hr2, hr2c⟩ := List.mem_map.mp hcmem
    exact hr2c ▸ List.mem_map_of_mem RespRow.num (List.mem_of_mem_filter hr2)

/-- On a nonempty `df_responses`, the sorted distinct pivot columns are
exactly `0, 1, ..., maxNum`. -/
lemma pivotCols_group (rows : List AnswerRow)
    (hne : group_data_by_nam_email rows ≠ []) :
    pivotCols (group_data_by_nam_email rows) =
      List.range (maxNum (group_data_by_nam_email rows) + 1) := by
  have hnodup : (pivotCols (group_data_by_nam_email rows)).Nodup :=
    (List.perm_insertionSort (α := Nat) (· ≤ ·) _).symm.nodup
      (List.nodup_dedup _)
  have hmem : ∀ c, c ∈ pivotCols (group_data_by_nam_email rows) ↔
      c ∈ List.range (maxNum (group_data_by_nam_email rows) + 1) := by
    intro c
    rw [List.mem_range]
    unfold pivotCols
    rw [(List.perm_insertionSort (α := Nat) (· ≤ ·) _).mem_iff,
      List.mem_dedup]
    exact mem_group_nums_iff rows hne c
  have hperm : (pivotCols (group_data_by_nam_email rows)).Perm
      (List.range (maxNum (group_data_by_nam_email rows) + 1)) :=
    List.perm_of_nodup_nodup_toFinset_eq hnodup (List.nodup_range _)
      (by
        ext c
        simp only [List.mem_toFinset]
        exact hmem c)
  exact List.eq_of_perm_of_sorted hperm
    (List.sorted_insertionSort (· ≤ ·) _) (List.sorted_le_range _)

/-- Reading a list through optional lookup along `0, ..., K-1` returns
its first `K` elements. -/
lemma filterMap_getElem_range (vals : List String) (K : Nat) :
    (List.range K).filterMap (fun c => vals[c]?) = vals.take K := by
  induction K with
  | zero => simp
  | succ k ih =>
    rw [List.range_succ, List.filterMap_append, ih, List.take_succ]
    cases h : vals[k]? <;> simp [List.filterMap_cons, h]

/-- A participant appearing in the pivot index has at most `maxNum + 1`
answers. -/
lemma answers_length_le (rows : List AnswerRow) (p : String × String)
    (hp : p ∈ pivotIndex (group_data_by_nam_email rows)) :
    (answersOf rows p.1 p.2).length ≤
      maxNum (group_data_by_nam_email rows) + 1 := by
  have hp2 : p ∈ ((group_data_by_nam_email rows).map fun r =>
      (r.nom, r.email)).dedup :=
    ((List.perm_insertionSort pairLe _).mem_iff).mp hp
  rw [List.mem_dedup] at hp2
  obtain ⟨r, hr, hkey⟩ := List.mem_map.mp hp2
  have hrf : r ∈ (group_data_by_nam_email rows).filter fun s =>
      decide (s.nom = p.1) && decide (s.email = p.2) := by
    rw [List.mem_filter]
    refine ⟨hr, ?_⟩
    rw [← hkey]
    simp
  have hnum := group_filter_num rows p
  have hin : r.num ∈ List.range' 0 (answersOf rows p.1 p.2).length := by
    rw [← hnum]
    exact List.mem_map_of_mem RespRow.num hrf
  have hpos : 0 < (answersOf rows p.1 p.2).length := by
    have := List.mem_range'_1.mp hin
    omega
  have hmem : (answersOf rows p.1 p.2).length - 1 ∈
      List.range' 0 (answersOf rows p.1 p.2).length :=
    List.mem_range'_1.mpr ⟨Nat.zero_le _, by omega⟩
  rw [← hnum] at hmem
  obtain ⟨r2, hr2, hr2e⟩ := List.mem_map.mp hmem
  have hle : (answersOf rows p.1 p.2).length - 1 ≤
      maxNum (group_data_by_nam_email rows) := by
    rw [← hr2e]
    exact le_foldr_max _ _ (List.mem_map_of_mem RespRow.num
      (List.mem_of_mem_filter hr2))
  omega

/-- Core pivot correctness: in each output row, the non-null cells read
in ascending column order are exactly the participant's original answer
sequence. -/
lemma pivot_cells_eq (rows : List AnswerRow) (pr : PivotRow)
    (hp : pr ∈ pivot_responses (group_data_by_nam_email rows)) :
    pr.cells.filterMap id = answersOf rows pr.nom pr.email := by
  obtain ⟨p, hpidx, rfl⟩ := List.mem_map.mp hp
  dsimp only
  have hne : group_data_by_nam_email rows ≠ [] := by
    intro h0
    rw [h0] at hpidx
    simp [pivotIndex] at hpidx
  rw [pivotCols_group rows hne, List.filterMap_map]
  have hfun : (id ∘ fun c => cell (group_data_by_nam_email rows) p c) =
      fun c => (answersOf rows p.1 p.2)[c]? := by
    funext c
    exact cell_eq_get rows p c
  rw [hfun, filterMap_getElem_range]
  exact List.take_of_length_le (answers_length_le rows p hpidx)

lemma pivot_keys_eq (l : List RespRow) :
    (pivot_responses l).map (fun pr => (pr.nom, pr.email)) = pivotIndex l := by
  unfold pivot_responses
  rw [List.map_map]
  exact List.map_id _

lemma pivotIndex_nodup (l : List RespRow) : (pivotIndex l).Nodup :=
  (List.perm_insertionSort pairLe _).symm.nodup (List.nodup_dedup _)

lemma mem_pivotIndex (l : List RespRow) (p : String × String) :
    p ∈ pivotIndex l ↔ p ∈ l.map fun r => (r.nom, r.email) := by
  unfold pivotIndex
  rw [(List.perm_insertionSort pairLe _).mem_iff, List.mem_dedup]

/-- A key appears among the grouped rows iff some input row carries it
with a non-missing answer. -/
lemma mem_keys_group (rows : List AnswerRow) (n e : String) :
    ((n, e) ∈ (group_data_by_nam_email rows).map fun r =>
        (r.nom, r.email)) ↔
      ∃ r ∈ rows, r.nom = n ∧ r.email = e ∧ r.reponse ≠ none := by
  unfold group_data_by_nam_email
  rw [cumcountFrom_map_key]
  unfold keptRows
  simp only [List.mem_map, List.mem_filterMap, Option.map_eq_some']
  constructor
  · rintro ⟨q, ⟨r, hr, v, hv, rfl⟩, hqe⟩
    simp only [Prod.mk.injEq] at hqe
    exact ⟨r, hr, hqe.1, hqe.2, by rw [hv]; exact Option.some_ne_none v⟩
  · rintro ⟨r, hr, h1, h2, h3⟩
    cases hv : r.reponse with
    | none => exact absurd hv h3
    | some v =>
      exact ⟨(r.nom, r.email, v), ⟨r, hr, v, hv, rfl⟩, by rw [h1, h2]⟩

/-- C3: rows with a missing answer are removed before ordinal
assignment; within each (name, email) group the ordinal is the 0-based
position in original input order; and in the pivot output each
participant's non-null cells, read in ascending column order, are
exactly that participant's original answer sequence. -/
theorem claim3_pivot_preserves_sequences (rows : List AnswerRow)
    (pr : PivotRow)
    (hp : pr ∈ pivot_responses (group_data_by_nam_email rows)) :
    pr.cells.filterMap id = answersOf rows pr.nom pr.email ∧
    ((group_data_by_nam_email rows).filter fun r =>
        decide (r.nom = pr.nom) && decide (r.email = pr.email)).map
        RespRow.reponse = answersOf rows pr.nom pr.email ∧
    ((group_data_by_nam_email rows).filter fun r =>
        decide (r.nom = pr.nom) && decide (r.email = pr.email)).map
        RespRow.num =
      List.range (answersOf rows pr.nom pr.email).length := by
  refine ⟨pivot_cells_eq rows pr hp, ?_, ?_⟩
  · exact group_filter_resp rows (pr.nom, pr.email)
  · rw [List.range_eq_range']
    exact group_filter_num rows (pr.nom, pr.email)

/-- The worked pivot example of the specification. -/
def pivotExampleRows : List AnswerRow :=
  [{ nom := "Alice", email := "e1", reponse := some "Yes" },
   { nom := "Alice", email := "e1", reponse := some "No" },
   { nom := "Bob", email := "e2", reponse := some "Maybe" }]

/-- Alice's row of the pivoted worked example. -/
def alicePivotRow : PivotRow :=
  { nom := "Alice", email := "e1", cells := [some "Yes", some "No"] }

/-- Witness for C3 at the specification's worked example: Alice's row
of the pivot reads `Yes`, `No` in order. -/
theorem claim3_witness :
    alicePivotRow ∈
      pivot_responses (group_data_by_nam_email pivotExampleRows) ∧
    alicePivotRow.cells.filterMap id =
      answersOf pivotExampleRows "Alice" "e1" := by
  have hidx : ("Alice", "e1") ∈
      pivotIndex (group_data_by_nam_email pivotExampleRows) := by
    rw [mem_pivotIndex]
    decide
  have hmem : alicePivotRow ∈
      pivot_responses (group_data_by_nam_email pivotExampleRows) := by
    unfold pivot_responses
    refine List.mem_map.mpr ⟨("Alice", "e1"), hidx, ?_⟩
    decide
  exact ⟨hmem, (claim3_pivot_preserves_sequences pivotExampleRows
    alicePivotRow hmem).1⟩

/-- C4: the pivot output has exactly one row per distinct (name, email)
pair of the qualifying input rows — no pair duplicated, dropped or
added — and each participant's cells carry exactly their original
answers. -/
theorem claim4_pivot_preserves_participants (rows : List AnswerRow)
    (_hne : keptRows rows ≠ []) :
    ((pivot_responses (group_data_by_nam_email rows)).map fun pr =>
        (pr.nom, pr.email)).Nodup ∧
    (∀ n e : String,
      ((n, e) ∈ (pivot_responses (group_data_by_nam_email rows)).map
          fun pr => (pr.nom, pr.email)) ↔
        ∃ r ∈ rows, r.nom = n ∧ r.email = e ∧ r.reponse ≠ none) ∧
    (∀ pr ∈ pivot_responses (group_data_by_nam_email rows),
      pr.cells.filterMap id = answersOf rows pr.nom pr.email) := by
  refine ⟨?_, ?_, ?_⟩
  · rw [pivot_keys_eq]
    exact pivotIndex_nodup _
  · intro n e
    rw [pivot_keys_eq, mem_pivotIndex]
    exact mem_keys_group rows n e
  · intro pr hp
    exact pivot_cells_eq rows pr hp

/-- Witness for C4 at the specification's worked example. -/
theorem claim4_witness :
    keptRows pivotExampleRows ≠ [] ∧
    ((pivot_responses (group_data_by_nam_email pivotExampleRows)).map
        fun pr => (pr.nom, pr.email)).Nodup ∧
    ((("Alice", "e1") ∈
        (pivot_responses (group_data_by_nam_email pivotExampleRows)).map
          fun pr => (pr.nom, pr.email)) ↔
      ∃ r ∈ pivotExampleRows, r.nom = "Alice" ∧ r.email = "e1" ∧
        r.reponse ≠ none) :=
  ⟨by decide,
   (claim4_pivot_preserves_participants pivotExampleRows (by decide)).1,
   (claim4_pivot_preserves_participants pivotExampleRows (by decide)).2.1
     "Alice" "e1"⟩

/-!
## Forward-fill in the pivot entry point

`load_and_fill_na_data` (lines 8-34) runs
`df.fillna(method="ffill")` on the whole loaded table before the
grouping step: every missing cell of every column — the answer column
included — receives the nearest non-missing value above it in the same
column (cells above the first non-missing value stay missing).
-/

/-- One row of the raw loaded table, before forward-fill: all three
columns may be missing. -/
structure RawRow where
  nom : Option String
  email : Option String
  reponse : Option String
deriving DecidableEq, Repr

/-- A cell value, defaulting to the running last-seen value of its
column when missing — the elementary step of a forward fill. -/
def orLast (x last : Option String) : Option String :=
  match x with
  | some v => some v
  | none => last

/-- Column-wise forward fill with explicit running last-seen values for
the three columns. -/
def ffillRowsFrom (lastNom lastEmail lastRep : Option String) :
    List RawRow → List RawRow
  | [] => []
  | r :: rs =>
    { nom := orLast r.nom lastNom, email := orLast r.email lastEmail,
      reponse := orLast r.reponse lastRep } ::
      ffillRowsFrom (orLast r.nom lastNom) (orLast r.email lastEmail)
        (orLast r.reponse lastRep) rs

/-- `load_and_fill_na_data` (lines 29-34): the loaded table after
`fillna(method="ffill")` — no last-seen value exists above the first
row. -/
def load_and_fill_na_data (rows : List RawRow) : List RawRow :=
  ffillRowsFrom none none none rows

/-- The last non-missing value of a column segment, if any. -/
def lastSome : List (Option String) → Option String
  | [] => none
  | x :: rest =>
    match lastSome rest with
    | some v => some v
    | none => x

lemma ffillRows_length (rows : List RawRow) :
    ∀ a b c, (ffillRowsFrom a b c rows).length = rows.length := by
  induction rows with
  | nil => intro a b c; rfl
  | cons r rs ih =>
    intro a b c
    simp only [ffillRowsFrom, List.length_cons]
    rw [ih]

lemma orLast_lastSome_cons (x : Option String) (t : List (Option String))
    (last : Option String) :
    orLast (lastSome (x :: t)) last = orLast (lastSome t) (orLast x last) := by
  simp only [lastSome]
  cases lastSome t with
  | none =>
    cases x <;> rfl
  | some v => rfl

/-- The forward-filled answer at row `i` is the last answer value
non-missing at or before row `i`, defaulting to the incoming running
value. -/
lemma ffillRows_reponse_getElem (rows : List RawRow) :
    ∀ (a b c : Option String) (i : Nat), i < rows.length →
      ((ffillRowsFrom a b c rows).map RawRow.reponse)[i]? =
        some (orLast (lastSome ((rows.map RawRow.reponse).take (i + 1))) c) := by
  induction rows with
  | nil =>
    intro a b c i hi
    exact absurd hi (Nat.not_lt_zero i)
  | cons r rs ih =>
    intro a b c i hi
    cases i with
    | zero =>
      simp only [ffillRowsFrom, List.map_cons, List.getElem?_cons_zero,
        List.take_succ, List.take_zero, List.nil_append]
      cases hr : r.reponse <;> rfl
    | succ j =>
      have hj : j < rs.length := by
        simp only [List.length_cons] at hi
        omega
      simp only [ffillRowsFrom, List.map_cons, List.getElem?_cons_succ]
      rw [ih (orLast r.nom a) (orLast r.email b) (orLast r.reponse c) j hj]
      rw [show (r.reponse :: rs.map RawRow.reponse).take (j + 1 + 1) =
        r.reponse :: (rs.map RawRow.reponse).take (j + 1) from rfl]
      rw [orLast_lastSome_cons]

lemma lastSome_append_none (t : List (Option String)) :
    lastSome (t ++ [none]) = lastSome t := by
  induction t with
  | nil => rfl
  | cons x t ih =>
    rw [List.cons_append]
    show (match lastSome (t ++ [none]) with
      | some v => some v
      | none => x) =
      (match lastSome t with
      | some v => some v
      | none => x)
    rw [ih]

/-- C9: in the pivot entry point, a row whose answer cell was missing
in the file — but that has some earlier row with a non-missing answer
— comes out of `load_and_fill_na_data` carrying that nearest preceding
answer value (which may belong to a different participant, as the
witness shows), so the subsequent `dropna` keeps it and `cumcount`
counts it as a real answer instead of excluding it. -/
theorem claim9_ffill_fills_missing_answers (rows : List RawRow)
    (i : Nat) (h : i < rows.length)
    (hmiss : (rows.map RawRow.reponse)[i]? = some none) (v : String)
    (hprev : lastSome ((rows.map RawRow.reponse).take i) = some v) :
    ((load_and_fill_na_data rows).map RawRow.reponse)[i]? =
      some (some v) ∧
    (load_and_fill_na_data rows).length = rows.length := by
  refine ⟨?_, ffillRows_length rows none none none⟩
  unfold load_and_fill_na_data
  rw [ffillRows_reponse_getElem rows none none none i h]
  have htake : (rows.map RawRow.reponse).take (i + 1) =
      (rows.map RawRow.reponse).take i ++ [none] := by
    rw [List.take_succ, hmiss]
    rfl
  rw [htake, lastSome_append_none, hprev]
  rfl

/-- Two raw rows: Alice answers `Yes`; Bob's answer cell is empty. -/
def c9Rows : List RawRow :=
  [{ nom := some "Alice", email := some "e1", reponse := some "Yes" },
   { nom := some "Bob", email := some "e2", reponse := none }]

/-- Witness for C9: after the fill, Bob's empty answer cell holds
Alice's answer `Yes` — a value from a different participant — and the
row would survive the `dropna` step. -/
theorem claim9_witness :
    (c9Rows.map RawRow.reponse)[1]? = some none ∧
    lastSome ((c9Rows.map RawRow.reponse).take 1) = some "Yes" ∧
    ((load_and_fill_na_data c9Rows).map RawRow.reponse)[1]? =
      some (some "Yes") ∧
    (load_and_fill_na_data c9Rows).length = c9Rows.length :=
  ⟨by decide, by decide,
   claim9_ffill_fills_missing_answers c9Rows 1 (by decide) (by decide)
     "Yes" (by decide)⟩
